import Mathlib

/-!
Verification of the Share-of-Search computation core of `app.py`.

The embedding models the algorithmic core of the Streamlit app:
keyword-list parsing and validation (lines 48, 79-83), the Share-of-Search
normalization loop (lines 100-108), pandas-style calendar resampling with
mean aggregation (lines 147, 161-162), and the year-over-year change
computed with `pct_change() * 100` (line 165).

Numeric values are rationals (`ℚ`); the pandas float special values that
the YoY division can produce are modelled explicitly by the `FVal` type
(finite, +inf, -inf, NaN) with the IEEE special-case rules for the
operations the pipeline uses. Rounding plays no role in any claim, so
exact rational arithmetic on the finite values is faithful.
-/

namespace SoS

/-- A calendar timestamp, kept at the resolution the aggregation steps
need: a calendar year and a month (1-12). Consecutive calendar months
(resp. years) have consecutive `monthIdx` (resp. `yearIdx`) labels, which
is what pandas `resample` ranges over. -/
structure Date where
  year : Int
  month : Int
deriving DecidableEq, Repr

/-- Month bucket label used by `resample('M')`: consecutive across month
and year boundaries. -/
def monthIdx (d : Date) : Int := d.year * 12 + (d.month - 1)

/-- Year bucket label used by `resample('Y')`. -/
def yearIdx (d : Date) : Int := d.year

/-- A time series row: timestamp and one value per keyword, in keyword
order. `interest_over_time_df` and `sos_df` both have this shape. -/
abbrev Series := List (Date × List ℚ)

/-! ### ShareNormalizer (app.py lines 100-108)

`interest_over_time_df['Total'] = interest_over_time_df.sum(axis=1)` and
then per keyword
`(row[kw] / row['Total']) * 100 if row['Total'] > 0 else 0`.
The trailing `sos_df.dropna(inplace=True)` removes rows containing NaN;
over numeric input the branch above never produces NaN (division happens
only when the total is strictly positive), so `dropna` is the identity
and is not represented. -/

/-- `row['Total']`: the row sum over the keyword columns. -/
def rowTotal (r : List ℚ) : ℚ := r.sum

/-- One row of the normalization loop: each value becomes
`value / total * 100` when the total is strictly positive, else `0`. -/
def normalizeRow (r : List ℚ) : List ℚ :=
  if 0 < rowTotal r then r.map (fun v => v / rowTotal r * 100)
  else r.map (fun _ => 0)

/-- `sos_df`: the normalization applied to every row, index preserved. -/
def sosDf (s : Series) : Series :=
  s.map (fun p => (p.1, normalizeRow p.2))

/-- The concrete two-row series of spec Example 1:
`[(t1, {A:50, B:50}), (t2, {A:0, B:0})]`. -/
def exampleSeries : Series :=
  [(⟨2022, 1⟩, [50, 50]), (⟨2022, 2⟩, [0, 0])]

/-! ### Pandas float special values

`sos_yearly.pct_change()` is float arithmetic: dividing by an exactly
zero prior value yields `inf`/`-inf`/`nan`, and the display formats `nan`
as `-` (absent) while `inf` is printed as a value. `FVal` models a float
as an exact rational plus these special points; only the IEEE cases
reachable from finite and NaN operands matter to the pipeline, but the
operations are total. -/

inductive FVal where
  | fin (q : ℚ)
  | inf
  | ninf
  | nan
deriving DecidableEq, Repr

/-- IEEE division on modelled floats. A finite numerator over exact zero
gives a signed infinity (NaN when the numerator is zero too). -/
def fdiv : FVal → FVal → FVal
  | FVal.nan, _ => FVal.nan
  | _, FVal.nan => FVal.nan
  | FVal.fin a, FVal.fin b =>
      if b ≠ 0 then FVal.fin (a / b)
      else if 0 < a then FVal.inf
      else if a < 0 then FVal.ninf
      else FVal.nan
  | FVal.inf, FVal.fin b => if b < 0 then FVal.ninf else FVal.inf
  | FVal.ninf, FVal.fin b => if b < 0 then FVal.inf else FVal.ninf
  | FVal.fin _, FVal.inf => FVal.fin 0
  | FVal.fin _, FVal.ninf => FVal.fin 0
  | _, _ => FVal.nan

/-- IEEE subtraction on modelled floats. -/
def fsub : FVal → FVal → FVal
  | FVal.nan, _ => FVal.nan
  | _, FVal.nan => FVal.nan
  | FVal.fin a, FVal.fin b => FVal.fin (a - b)
  | FVal.inf, FVal.inf => FVal.nan
  | FVal.inf, _ => FVal.inf
  | FVal.ninf, FVal.ninf => FVal.nan
  | FVal.ninf, _ => FVal.ninf
  | FVal.fin _, FVal.inf => FVal.ninf
  | FVal.fin _, FVal.ninf => FVal.inf

/-- IEEE multiplication on modelled floats. -/
def fmul : FVal → FVal → FVal
  | FVal.nan, _ => FVal.nan
  | _, FVal.nan => FVal.nan
  | FVal.fin a, FVal.fin b => FVal.fin (a * b)
  | FVal.inf, FVal.inf => FVal.inf
  | FVal.inf, FVal.ninf => FVal.ninf
  | FVal.ninf, FVal.inf => FVal.ninf
  | FVal.ninf, FVal.ninf => FVal.inf
  | FVal.inf, FVal.fin b =>
      if 0 < b then FVal.inf else if b < 0 then FVal.ninf else FVal.nan
  | FVal.ninf, FVal.fin b =>
      if 0 < b then FVal.ninf else if b < 0 then FVal.inf else FVal.nan
  | FVal.fin a, FVal.inf =>
      if 0 < a then FVal.inf else if a < 0 then FVal.ninf else FVal.nan
  | FVal.fin a, FVal.ninf =>
      if 0 < a then FVal.ninf else if a < 0 then FVal.inf else FVal.nan

/-! ### TemporalResampler (app.py lines 147 and 161)

`sos_df.resample('M').mean()` (and `'Y'`): pandas groups the rows by
calendar period, producing one output row for EVERY period from the
first row's period to the last row's period inclusive; `.mean()` of an
empty bucket is NaN, so gap periods appear as NaN rows. -/

/-- The consecutive integer period labels from `a` to `b` inclusive. -/
def periodRange (a b : Int) : List Int :=
  (List.range (b - a + 1).toNat).map (fun i : ℕ => a + (i : Int))

/-- The value rows of the series falling in period `p`. -/
def bucketRows (per : Date → Int) (s : Series) (p : Int) : List (List ℚ) :=
  (s.filter (fun r => per r.1 = p)).map Prod.snd

/-- The per-keyword mean of the bucket at period `p`: the unweighted
arithmetic mean of each keyword column over the rows in the bucket, NaN
for every keyword when the bucket is empty (pandas `.mean()` of an empty
group). `k` is the number of keyword columns. -/
def bucketMean (k : ℕ) (per : Date → Int) (s : Series) (p : Int) : List FVal :=
  (List.range k).map (fun j =>
    if bucketRows per s p = [] then FVal.nan
    else FVal.fin (((bucketRows per s p).map (fun r => r.getD j 0)).sum
                    / (bucketRows per s p).length))

/-- pandas `resample(..).mean()`: one row per period label from the
minimum to the maximum period of the input, in chronological order. -/
def resampleMean (k : ℕ) (per : Date → Int) : Series → List (Int × List FVal)
  | [] => []
  | r :: rest =>
      (periodRange
        (rest.foldl (fun m x => min m (per x.1)) (per r.1))
        (rest.foldl (fun m x => max m (per x.1)) (per r.1))).map
        (fun p => (p, bucketMean k per (r :: rest) p))

/-! ### YoYCalculator (app.py line 165)

`yoy_change = sos_yearly.pct_change() * 100`, column-wise. pandas
`pct_change` forward-fills NaN first (default `fill_method='pad'`), then
computes `filled / filled.shift(1) - 1`; the first row is always NaN. -/

/-- pandas forward fill: each NaN is replaced by the last value before
it, leading NaNs stay. The accumulator carries the last value seen. -/
def ffillAux : Option FVal → List FVal → List FVal
  | _, [] => []
  | last, x :: xs =>
      if x = FVal.nan then
        match last with
        | some v => v :: ffillAux (some v) xs
        | none => FVal.nan :: ffillAux none xs
      else x :: ffillAux (some x) xs

/-- `pct_change()` of one column: NaN at position 0, then
`filled[i] / filled[i-1] - 1` at each later position. -/
def pctChangeList (xs : List FVal) : List FVal :=
  match ffillAux none xs with
  | [] => []
  | y :: t =>
      FVal.nan ::
        List.zipWith (fun prev cur => fsub (fdiv cur prev) (FVal.fin 1)) (y :: t) t

/-- One column of `yoy_change`: `pct_change() * 100`. -/
def yoyOfColumn (xs : List FVal) : List FVal :=
  (pctChangeList xs).map (fun x => fmul x (FVal.fin 100))

/-- Column `j` of `sos_yearly` (`resample('Y').mean()` with the index
reduced to the year, line 161-162). -/
def yearlyCol (k j : ℕ) (s : Series) : List FVal :=
  (resampleMean k yearIdx s).map (fun r => r.2.getD j FVal.nan)

/-- Column `j` of `yoy_change` for a share series: the yearly resample
followed by `pct_change() * 100`. -/
def yoyCol (k j : ℕ) (s : Series) : List FVal :=
  yoyOfColumn (yearlyCol k j s)

/-! ### Keyword parsing and validation (app.py lines 48 and 79-83)

`keyword_list = [kw.strip() for kw in keywords_input.split(',') if kw.strip()]`
then `if not keyword_list: warning; elif len(keyword_list) > 5: warning;
else: fetch and analyze`. Strings are modelled as `List Char`. -/

/-- Python `str.split(',')`: fragments between commas, empty fragments
included; the empty string splits to one empty fragment. -/
def splitComma : List Char → List (List Char)
  | [] => [[]]
  | c :: cs =>
      if c = ',' then [] :: splitComma cs
      else
        match splitComma cs with
        | [] => [[c]]
        | f :: rest => (c :: f) :: rest

/-- The ASCII whitespace stripped by Python `str.strip()` (space, tab,
newline, carriage return, vertical tab, form feed). -/
def pyWhitespace (c : Char) : Bool :=
  c = ' ' || c = '\t' || c = '\n' || c = '\r' || c.toNat = 11 || c.toNat = 12

/-- Python `str.strip()`: drop whitespace from both ends. -/
def pyStrip (s : List Char) : List Char :=
  ((s.dropWhile pyWhitespace).reverse.dropWhile pyWhitespace).reverse

/-- Line 48: split the raw input on commas, strip each fragment, keep
only the fragments that are non-empty after stripping. -/
def keywordList (input : List Char) : List (List Char) :=
  ((splitComma input).map pyStrip).filter (fun kw => kw ≠ [])

/-- What the run handler does with a keyword list: warn on an empty
list, warn when more than 5 keywords, otherwise build the provider
request and run the analysis on exactly that list. -/
inductive RunOutcome where
  | warnEmpty
  | warnTooMany
  | analyze (kws : List (List Char))
deriving DecidableEq, Repr

/-- Lines 79-84: the validation branch of the run button. The fetch
(`TrendReq` / `build_payload`) and the whole share computation live only
inside the `analyze` branch. -/
def runAction (kws : List (List Char)) : RunOutcome :=
  if kws = [] then RunOutcome.warnEmpty
  else if 5 < kws.length then RunOutcome.warnTooMany
  else RunOutcome.analyze kws

end SoS

/-! ## Basic facts about the normalization -/

namespace SoS

lemma sum_map_div_mul (r : List ℚ) (t : ℚ) :
    (r.map (fun v => v / t * 100)).sum = r.sum / t * 100 := by
  induction r with
  | nil => simp
  | cons x xs ih => simp [ih, add_div, add_mul]

lemma normalizeRow_sum (r : List ℚ) (h : 0 < rowTotal r) :
    (normalizeRow r).sum = 100 := by
  have h' : r.sum ≠ 0 := by
    simpa [rowTotal] using ne_of_gt h
  rw [normalizeRow, if_pos h, sum_map_div_mul, rowTotal, div_self h', one_mul]

lemma normalizeRow_zero (r : List ℚ) (h : ¬ 0 < rowTotal r) :
    normalizeRow r = r.map (fun _ => 0) := by
  rw [normalizeRow, if_neg h]

lemma sosDf_exampleSeries : sosDf exampleSeries = exampleSeries := by
  norm_num [sosDf, exampleSeries, normalizeRow, rowTotal, List.replicate]

end SoS

/-! ## Facts about the YoY calculator -/

namespace SoS

lemma ffillAux_length (o : Option FVal) (xs : List FVal) :
    (ffillAux o xs).length = xs.length := by
  induction xs generalizing o with
  | nil => rfl
  | cons x t ih =>
      by_cases hx : x = FVal.nan
      · cases o with
        | none => simp [ffillAux, hx, ih]
        | some v => simp [ffillAux, hx, ih]
      · simp [ffillAux, hx, ih]

lemma ffillAux_getD_fin (xs : List FVal) :
    ∀ (o : Option FVal) (i : ℕ) (q : ℚ),
      xs.getD i FVal.nan = FVal.fin q →
      (ffillAux o xs).getD i FVal.nan = FVal.fin q := by
  induction xs with
  | nil =>
      intro o i q h
      simp [List.getD] at h
  | cons x t ih =>
      intro o i q h
      cases i with
      | zero =>
          rw [List.getD_cons_zero] at h
          have hx : ¬ x = FVal.nan := by rw [h]; intro hc; cases hc
          simp only [ffillAux, if_neg hx, List.getD_cons_zero]
          exact h
      | succ i =>
          rw [List.getD_cons_succ] at h
          by_cases hx : x = FVal.nan
          · cases o with
            | none =>
                simp only [ffillAux, if_pos hx, List.getD_cons_succ]
                exact ih none i q h
            | some v =>
                simp only [ffillAux, if_pos hx, List.getD_cons_succ]
                exact ih (some v) i q h
          · simp only [ffillAux, if_neg hx, List.getD_cons_succ]
            exact ih (some x) i q h

lemma zipWith_tail_getD (g : FVal → FVal → FVal) (d : FVal) :
    ∀ (f : List FVal) (i : ℕ), i + 1 < f.length →
      (List.zipWith g f f.tail).getD i d = g (f.getD i d) (f.getD (i + 1) d)
  | [], i, h => by simp at h
  | [y], i, h => by simp at h
  | y :: z :: u, 0, h => by
      simp [List.getD_cons_zero, List.getD_cons_succ]
  | y :: z :: u, i + 1, h => by
      have ih := zipWith_tail_getD g d (z :: u) i (by simpa using h)
      simpa [List.getD_cons_succ] using ih

lemma pctChangeList_length (xs : List FVal) :
    (pctChangeList xs).length = xs.length := by
  rw [pctChangeList]
  cases hf : ffillAux none xs with
  | nil =>
      have := ffillAux_length none xs
      rw [hf] at this
      simp [← this]
  | cons y t =>
      have := ffillAux_length none xs
      rw [hf] at this
      simp only [List.length_cons, List.length_zipWith, List.tail_cons] at this ⊢
      omega

lemma pctChangeList_getD_succ (xs : List FVal) (i : ℕ) (h : i + 1 < xs.length) :
    (pctChangeList xs).getD (i + 1) FVal.nan
      = fsub (fdiv ((ffillAux none xs).getD (i + 1) FVal.nan)
                   ((ffillAux none xs).getD i FVal.nan)) (FVal.fin 1) := by
  rw [pctChangeList]
  cases hf : ffillAux none xs with
  | nil =>
      have hl := ffillAux_length none xs
      rw [hf] at hl
      simp [← hl] at h
  | cons y t =>
      have hl := ffillAux_length none xs
      rw [hf] at hl
      rw [List.getD_cons_succ]
      exact zipWith_tail_getD _ _ (y :: t) i
        (by simp only [List.length_cons] at hl ⊢; omega)

lemma yoyOfColumn_getD_succ (xs : List FVal) (i : ℕ) (h : i + 1 < xs.length) :
    (yoyOfColumn xs).getD (i + 1) FVal.nan
      = fmul (fsub (fdiv ((ffillAux none xs).getD (i + 1) FVal.nan)
                         ((ffillAux none xs).getD i FVal.nan)) (FVal.fin 1))
          (FVal.fin 100) := by
  have hlen : i + 1 < (pctChangeList xs).length := by
    rw [pctChangeList_length]; exact h
  rw [yoyOfColumn, List.getD_eq_getElem _ _ (by simpa using hlen),
    List.getElem_map, ← List.getD_eq_getElem _ FVal.nan hlen,
    pctChangeList_getD_succ xs i h]

lemma yoyOfColumn_head (xs : List FVal) (hs : xs ≠ []) :
    (yoyOfColumn xs).head? = some FVal.nan := by
  rw [yoyOfColumn, pctChangeList]
  cases hf : ffillAux none xs with
  | nil =>
      have hl := ffillAux_length none xs
      rw [hf] at hl
      exact absurd (List.length_eq_zero.mp hl.symm) hs
  | cons y t => rfl

end SoS

/-! ## Facts about the resampler -/

namespace SoS

lemma mem_periodRange {a b p : Int} : p ∈ periodRange a b ↔ a ≤ p ∧ p ≤ b := by
  constructor
  · intro hp
    obtain ⟨i, hi, rfl⟩ := List.mem_map.mp hp
    rw [List.mem_range] at hi
    omega
  · rintro ⟨h1, h2⟩
    exact List.mem_map.mpr
      ⟨(p - a).toNat, List.mem_range.mpr (by omega), by omega⟩

lemma periodRange_ne_nil {a b : Int} (h : a ≤ b) : periodRange a b ≠ [] := by
  have : a ∈ periodRange a b := mem_periodRange.mpr ⟨le_refl a, h⟩
  intro hnil
  rw [hnil] at this
  exact absurd this (List.not_mem_nil a)

lemma foldl_min_le_init {α : Type} (g : α → Int) (l : List α) (i : Int) :
    l.foldl (fun m x => min m (g x)) i ≤ i := by
  induction l generalizing i with
  | nil => exact le_refl i
  | cons x xs ih =>
      exact le_trans (ih (min i (g x))) (min_le_left i (g x))

lemma init_le_foldl_max {α : Type} (g : α → Int) (l : List α) (i : Int) :
    i ≤ l.foldl (fun m x => max m (g x)) i := by
  induction l generalizing i with
  | nil => exact le_refl i
  | cons x xs ih =>
      exact le_trans (le_max_left i (g x)) (ih (max i (g x)))

lemma resampleMean_ne_nil (k : ℕ) (per : Date → Int) (s : Series) (hs : s ≠ []) :
    resampleMean k per s ≠ [] := by
  cases s with
  | nil => exact absurd rfl hs
  | cons r rest =>
      rw [resampleMean]
      have hab :
          rest.foldl (fun m x => min m (per x.1)) (per r.1)
            ≤ rest.foldl (fun m x => max m (per x.1)) (per r.1) :=
        le_trans (foldl_min_le_init _ rest (per r.1))
          (init_le_foldl_max _ rest (per r.1))
      intro hnil
      exact periodRange_ne_nil hab (List.map_eq_nil_iff.mp hnil)

lemma mem_resampleMean (k : ℕ) (per : Date → Int) (s : Series)
    {p : Int} {vals : List FVal} (h : (p, vals) ∈ resampleMean k per s) :
    vals = bucketMean k per s p := by
  cases s with
  | nil => rw [resampleMean] at h; exact absurd h (List.not_mem_nil _)
  | cons r rest =>
      rw [resampleMean] at h
      obtain ⟨q, _, heq⟩ := List.mem_map.mp h
      have hq : q = p := congrArg Prod.fst heq
      have hv : bucketMean k per (r :: rest) q = vals := congrArg Prod.snd heq
      rw [← hv, hq]

lemma bucketMean_getD (k : ℕ) (per : Date → Int) (s : Series) (p : Int)
    (j : ℕ) (hj : j < k) (hne : bucketRows per s p ≠ []) :
    (bucketMean k per s p).getD j FVal.nan
      = FVal.fin (((bucketRows per s p).map (fun r => r.getD j 0)).sum
          / (bucketRows per s p).length) := by
  have hlen : j < ((List.range k).map (fun j =>
      if bucketRows per s p = [] then FVal.nan
      else FVal.fin (((bucketRows per s p).map (fun r => r.getD j 0)).sum
        / (bucketRows per s p).length))).length := by
    simpa using hj
  rw [bucketMean, List.getD_eq_getElem _ _ hlen, List.getElem_map,
    List.getElem_range, if_neg hne]

lemma bucketMean_of_empty (k : ℕ) (per : Date → Int) (s : Series) (p : Int)
    (hemp : bucketRows per s p = []) :
    bucketMean k per s p = List.replicate k FVal.nan := by
  rw [bucketMean, List.map_congr_left (fun j _ => if_pos hemp)]
  simp [List.map_const']

end SoS

/-! ## Claim C1 -/

/-- C1 counterexample: on the series `[(t1,{A:50,B:50}), (t2,{A:0,B:0})]`
of spec Example 1, the normalization does NOT drop the zero-total row
`t2`: it is emitted as the all-zero row `(t2, [0, 0])`, so the output's
timestamps are both input timestamps and not only the ones whose raw
total is strictly positive. -/
theorem C1_counterexample :
    ((⟨2022, 2⟩ : SoS.Date), [(0 : ℚ), 0]) ∈ SoS.sosDf SoS.exampleSeries ∧
    ¬ ((SoS.sosDf SoS.exampleSeries).map Prod.fst
        = (SoS.exampleSeries.filter (fun p => decide (0 < p.2.sum))).map Prod.fst) := by
  rw [SoS.sosDf_exampleSeries]
  constructor
  · norm_num [SoS.exampleSeries]
  · norm_num [SoS.exampleSeries, List.filter]

/-- C1 (amended): normalization never drops a row: the output timestamps
are exactly all input timestamps, and every input row whose per-keyword
values do not sum to a strictly positive total is emitted as an all-zero
row (one zero per keyword), not removed. -/
theorem C1_amended (s : SoS.Series) :
    (SoS.sosDf s).map Prod.fst = s.map Prod.fst ∧
    ∀ t r, (t, r) ∈ s → ¬ 0 < r.sum →
      (t, r.map (fun _ => (0 : ℚ))) ∈ SoS.sosDf s := by
  constructor
  · simp [SoS.sosDf]
  · intro t r hmem hz
    have h : (t, SoS.normalizeRow r) ∈ SoS.sosDf s :=
      List.mem_map.mpr ⟨(t, r), hmem, rfl⟩
    rwa [SoS.normalizeRow_zero r (by simpa [SoS.rowTotal] using hz)] at h

/-- Witness for C1 (amended) at the Example-1 series. -/
theorem C1_amended_witness :
    ((⟨2022, 2⟩ : SoS.Date), [(0 : ℚ), 0]) ∈ SoS.sosDf SoS.exampleSeries :=
  (C1_amended SoS.exampleSeries).2 ⟨2022, 2⟩ [0, 0]
    (by norm_num [SoS.exampleSeries]) (by norm_num)

/-! ## Claim C2 -/

/-- C2: for every row with strictly positive raw total (any keyword count
from 1 to 5, non-negative values), the keyword shares produced by the
normalization sum to 100 within 1e-6 (in fact exactly). -/
theorem C2_share_sum (r : List ℚ)
    (h1 : 1 ≤ r.length) (h5 : r.length ≤ 5)
    (hnn : ∀ v ∈ r, 0 ≤ v) (hpos : 0 < r.sum) :
    |(SoS.normalizeRow r).sum - 100| ≤ 1 / 1000000 := by
  rw [SoS.normalizeRow_sum r (by simpa [SoS.rowTotal] using hpos)]
  norm_num

/-- Witness for C2 at the row `[50, 50]`. -/
theorem C2_share_sum_witness :
    |(SoS.normalizeRow [50, 50]).sum - 100| ≤ 1 / 1000000 :=
  C2_share_sum [50, 50] (by norm_num) (by norm_num)
    (by intro v hv; fin_cases hv <;> norm_num) (by norm_num)

/-! ## Claim C9 -/

/-- C9: on any row of non-negative raw values (zero-total rows included),
every computed share lies in `[0, 100]`. -/
theorem C9_share_bounds (r : List ℚ) (hnn : ∀ v ∈ r, 0 ≤ v) :
    ∀ w ∈ SoS.normalizeRow r, 0 ≤ w ∧ w ≤ 100 := by
  intro w hw
  by_cases h : 0 < SoS.rowTotal r
  · rw [SoS.normalizeRow, if_pos h] at hw
    obtain ⟨v, hv, rfl⟩ := List.mem_map.mp hw
    have hv0 : 0 ≤ v := hnn v hv
    have hvT : v ≤ SoS.rowTotal r := List.single_le_sum hnn v hv
    refine ⟨by positivity, ?_⟩
    have h1 : v / SoS.rowTotal r ≤ 1 := (div_le_one h).mpr hvT
    calc v / SoS.rowTotal r * 100 ≤ 1 * 100 :=
          mul_le_mul_of_nonneg_right h1 (by norm_num)
      _ = 100 := by norm_num
  · rw [SoS.normalizeRow_zero r h] at hw
    obtain ⟨v, hv, rfl⟩ := List.mem_map.mp hw
    norm_num

/-- Witness for C9 at the first share of the zero-total row `[0, 0]`. -/
theorem C9_share_bounds_witness :
    0 ≤ (0 : ℚ) ∧ (0 : ℚ) ≤ 100 :=
  C9_share_bounds [0, 0] (by intro v hv; fin_cases hv <;> norm_num) 0
    (by norm_num [SoS.normalizeRow, SoS.rowTotal, List.replicate])

/-! ## Claim C3 -/

/-- C3 counterexample: on the share series with yearly values 0 (2022)
and 20 (2023) for the single keyword, the YoY value for 2023 is positive
infinity — a represented value, distinct from the NaN that the display
renders as absent — not absent. -/
theorem C3_counterexample :
    SoS.yoyCol 1 0 [(⟨2022, 1⟩, [0]), (⟨2023, 1⟩, [20])]
      = [SoS.FVal.nan, SoS.FVal.inf] ∧
    SoS.FVal.inf ≠ SoS.FVal.nan := by
  have hb22 : SoS.bucketRows SoS.yearIdx
      [(⟨2022, 1⟩, [0]), (⟨2023, 1⟩, [20])] 2022 = [[0]] := by
    norm_num [SoS.bucketRows, SoS.yearIdx, List.filter]
  have hb23 : SoS.bucketRows SoS.yearIdx
      [(⟨2022, 1⟩, [0]), (⟨2023, 1⟩, [20])] 2023 = [[20]] := by
    norm_num [SoS.bucketRows, SoS.yearIdx, List.filter]
  have hm22 : SoS.bucketMean 1 SoS.yearIdx
      [(⟨2022, 1⟩, [0]), (⟨2023, 1⟩, [20])] 2022 = [SoS.FVal.fin 0] := by
    simp only [SoS.bucketMean, hb22]
    norm_num [List.range_succ]
  have hm23 : SoS.bucketMean 1 SoS.yearIdx
      [(⟨2022, 1⟩, [0]), (⟨2023, 1⟩, [20])] 2023 = [SoS.FVal.fin 20] := by
    simp only [SoS.bucketMean, hb23]
    norm_num [List.range_succ]
  have hrange : SoS.periodRange 2022 2023 = [2022, 2023] := by decide
  have hrs : SoS.resampleMean 1 SoS.yearIdx
      [(⟨2022, 1⟩, [0]), (⟨2023, 1⟩, [20])]
      = [(2022, [SoS.FVal.fin 0]), (2023, [SoS.FVal.fin 20])] := by
    rw [SoS.resampleMean]
    norm_num [SoS.yearIdx]
    rw [hrange]
    simp only [List.map_cons, List.map_nil, hm22, hm23]
  have h1 : SoS.yearlyCol 1 0 [(⟨2022, 1⟩, [0]), (⟨2023, 1⟩, [20])]
      = [SoS.FVal.fin 0, SoS.FVal.fin 20] := by
    rw [SoS.yearlyCol, hrs]
    rfl
  have h2 : SoS.yoyOfColumn [SoS.FVal.fin 0, SoS.FVal.fin 20]
      = [SoS.FVal.nan, SoS.FVal.inf] := rfl
  refine ⟨?_, by simp⟩
  rw [SoS.yoyCol, h1, h2]

/-- C3 (amended): when a keyword's prior-year value is exactly 0, the
computed YoY value is positive infinity if the current year's value is
positive, negative infinity if it is negative, and NaN (rendered absent)
only when the current value is 0 too; it is never a finite number and
never zero. -/
theorem C3_amended (xs : List SoS.FVal) (i : ℕ) (b : ℚ)
    (h : i + 1 < xs.length)
    (hi : xs.getD i SoS.FVal.nan = SoS.FVal.fin 0)
    (hii : xs.getD (i + 1) SoS.FVal.nan = SoS.FVal.fin b) :
    (SoS.yoyOfColumn xs).getD (i + 1) SoS.FVal.nan
      = if 0 < b then SoS.FVal.inf
        else if b < 0 then SoS.FVal.ninf
        else SoS.FVal.nan := by
  rw [SoS.yoyOfColumn_getD_succ xs i h, SoS.ffillAux_getD_fin xs none i 0 hi,
    SoS.ffillAux_getD_fin xs none (i + 1) b hii]
  rcases lt_trichotomy 0 b with hb | hb | hb
  · rw [if_pos hb]
    have hd : SoS.fdiv (SoS.FVal.fin b) (SoS.FVal.fin 0) = SoS.FVal.inf := by
      norm_num [SoS.fdiv, hb]
    rw [hd]
    rfl
  · have hd : SoS.fdiv (SoS.FVal.fin b) (SoS.FVal.fin 0) = SoS.FVal.nan := by
      rw [← hb]
      norm_num [SoS.fdiv]
    rw [hd, if_neg (by rw [← hb]; norm_num), if_neg (by rw [← hb]; norm_num)]
    rfl
  · rw [if_neg (not_lt.mpr (le_of_lt hb)), if_pos hb]
    have hd : SoS.fdiv (SoS.FVal.fin b) (SoS.FVal.fin 0) = SoS.FVal.ninf := by
      norm_num [SoS.fdiv, hb, not_lt.mpr (le_of_lt hb)]
    rw [hd]
    rfl

/-- Witness for C3 (amended) at the yearly column `[0, 20]`. -/
theorem C3_amended_witness :
    (SoS.yoyOfColumn [SoS.FVal.fin 0, SoS.FVal.fin 20]).getD 1 SoS.FVal.nan
      = SoS.FVal.inf := by
  rw [C3_amended [SoS.FVal.fin 0, SoS.FVal.fin 20] 0 20 (by norm_num) rfl rfl]
  norm_num

/-! ## Claim C5 -/

/-- C5: for consecutive positions of the yearly column both holding
values, with a nonzero prior value `a` and current value `b`, the YoY
value is exactly `100 * (b - a) / a`. -/
theorem C5_yoy_formula (xs : List SoS.FVal) (i : ℕ) (a b : ℚ)
    (h : i + 1 < xs.length)
    (hi : xs.getD i SoS.FVal.nan = SoS.FVal.fin a)
    (hii : xs.getD (i + 1) SoS.FVal.nan = SoS.FVal.fin b)
    (ha : a ≠ 0) :
    (SoS.yoyOfColumn xs).getD (i + 1) SoS.FVal.nan
      = SoS.FVal.fin (100 * (b - a) / a) := by
  rw [SoS.yoyOfColumn_getD_succ xs i h, SoS.ffillAux_getD_fin xs none i a hi,
    SoS.ffillAux_getD_fin xs none (i + 1) b hii]
  simp only [SoS.fdiv, if_pos ha, SoS.fsub, SoS.fmul]
  congr 1
  field_simp
  ring

/-- Witness for C5: yearly values 40 then 60 give +50.0 percent. -/
theorem C5_yoy_formula_witness :
    (SoS.yoyOfColumn [SoS.FVal.fin 40, SoS.FVal.fin 60]).getD 1 SoS.FVal.nan
      = SoS.FVal.fin 50 := by
  rw [C5_yoy_formula [SoS.FVal.fin 40, SoS.FVal.fin 60] 0 40 60
    (by norm_num) rfl rfl (by norm_num)]
  norm_num

/-! ## Claim C6 -/

/-- C6: for every non-empty share series and every keyword column, the
first entry of the YoY column — the earliest year — is NaN, which the
display renders as absent: the YoY calculator never produces a numeric
value for the earliest year. -/
theorem C6_first_year_absent (k j : ℕ) (s : SoS.Series) (hs : s ≠ []) :
    (SoS.yoyCol k j s).head? = some SoS.FVal.nan := by
  rw [SoS.yoyCol]
  refine SoS.yoyOfColumn_head _ ?_
  rw [SoS.yearlyCol]
  intro hnil
  exact SoS.resampleMean_ne_nil k SoS.yearIdx s hs (List.map_eq_nil_iff.mp hnil)

/-- Witness for C6 at a one-row series. -/
theorem C6_first_year_absent_witness :
    (SoS.yoyCol 1 0 [(⟨2022, 1⟩, [50])]).head? = some SoS.FVal.nan :=
  C6_first_year_absent 1 0 [(⟨2022, 1⟩, [50])] (List.cons_ne_nil _ _)

/-! ## Facts about keyword parsing -/

namespace SoS

lemma splitComma_ne_nil (l : List Char) : splitComma l ≠ [] := by
  cases l with
  | nil => simp [splitComma]
  | cons c cs =>
      by_cases h : c = ','
      · simp [splitComma, h]
      · cases hcs : splitComma cs with
        | nil => simp [splitComma, h, hcs]
        | cons f rest => simp [splitComma, h, hcs]

lemma mem_of_mem_splitComma (l : List Char) :
    ∀ frag ∈ splitComma l, ∀ c ∈ frag, c ∈ l ∧ c ≠ ',' := by
  induction l with
  | nil =>
      intro frag hfrag c hc
      simp [splitComma] at hfrag
      subst hfrag
      simp at hc
  | cons a cs ih =>
      intro frag hfrag c hc
      by_cases h : a = ','
      · rw [splitComma, if_pos h] at hfrag
        rcases List.mem_cons.mp hfrag with h1 | h1
        · subst h1; simp at hc
        · have := ih frag h1 c hc
          exact ⟨List.mem_cons_of_mem a this.1, this.2⟩
      · rw [splitComma, if_neg h] at hfrag
        cases hcs : splitComma cs with
        | nil => exact absurd hcs (splitComma_ne_nil cs)
        | cons f rest =>
            rw [hcs] at hfrag
            rcases List.mem_cons.mp hfrag with h1 | h1
            · subst h1
              rcases List.mem_cons.mp hc with h2 | h2
              · subst h2; exact ⟨List.mem_cons_self c cs, h⟩
              · have hf : f ∈ splitComma cs := by rw [hcs]; exact List.mem_cons_self f rest
                have := ih f hf c h2
                exact ⟨List.mem_cons_of_mem a this.1, this.2⟩
            · have hf : frag ∈ splitComma cs := by rw [hcs]; exact List.mem_cons_of_mem f h1
              have := ih frag hf c hc
              exact ⟨List.mem_cons_of_mem a this.1, this.2⟩

lemma pyStrip_of_all_whitespace (s : List Char) (h : ∀ c ∈ s, pyWhitespace c) :
    pyStrip s = [] := by
  have h1 : s.dropWhile pyWhitespace = [] := by
    rw [List.dropWhile_eq_nil_iff]
    intro c hc
    exact h c hc
  simp [pyStrip, h1]

lemma splitComma_append_comma (l : List Char) :
    splitComma (l ++ [',']) = splitComma l ++ [[]] := by
  induction l with
  | nil => simp [splitComma]
  | cons a cs ih =>
      by_cases h : a = ','
      · simp [splitComma, h, ih]
      · cases hcs : splitComma cs with
        | nil => exact absurd hcs (splitComma_ne_nil cs)
        | cons f rest =>
            have h2 : splitComma (cs ++ [',']) = f :: (rest ++ [[]]) := by
              rw [ih, hcs, List.cons_append]
            simp only [List.cons_append, splitComma, List.append_eq, if_neg h,
              h2, hcs]

lemma keywordList_append_comma (l : List Char) :
    keywordList (l ++ [',']) = keywordList l := by
  rw [keywordList, keywordList, splitComma_append_comma, List.map_append,
    List.filter_append]
  simp [pyStrip]

end SoS

/-! ## Claim C4 -/

/-- C4 counterexample: for the share series with rows only in 2023-01 and
2023-03, the monthly resample emits a bucket row for 2023-02 (period
label `24277`) although no input row falls in that month: the bucket is
present (valued NaN), not absent. -/
theorem C4_counterexample :
    ((24277 : Int), [SoS.FVal.nan])
        ∈ SoS.resampleMean 1 SoS.monthIdx
            [(⟨2023, 1⟩, [10]), (⟨2023, 3⟩, [10])] ∧
    SoS.bucketRows SoS.monthIdx
        [(⟨2023, 1⟩, [10]), (⟨2023, 3⟩, [10])] 24277 = [] := by
  have hemp : SoS.bucketRows SoS.monthIdx
      [(⟨2023, 1⟩, [10]), (⟨2023, 3⟩, [10])] 24277 = [] := by
    norm_num [SoS.bucketRows, SoS.monthIdx, List.filter]
  refine ⟨?_, hemp⟩
  have hmean := SoS.bucketMean_of_empty 1 SoS.monthIdx
    [(⟨2023, 1⟩, [10]), (⟨2023, 3⟩, [10])] 24277 hemp
  rw [List.replicate_one] at hmean
  rw [SoS.resampleMean, ← hmean]
  refine List.mem_map.mpr ⟨24277, SoS.mem_periodRange.mpr ⟨?_, ?_⟩, rfl⟩ <;>
    norm_num [SoS.monthIdx]

/-- C4 (amended): the resampled series has one bucket row for EVERY
calendar period from the first to the last period covered by the input,
in particular a period in that range with zero contributing rows is
present in the output, carrying NaN for every keyword (not zero, not an
empty row); only periods outside the covered range are absent. -/
theorem C4_amended (k : ℕ) (per : SoS.Date → Int) (r : SoS.Date × List ℚ)
    (rest : SoS.Series) (p : Int)
    (hap : (rest.foldl (fun m x => min m (per x.1)) (per r.1)) ≤ p)
    (hpb : p ≤ rest.foldl (fun m x => max m (per x.1)) (per r.1)) :
    (p, SoS.bucketMean k per (r :: rest) p)
        ∈ SoS.resampleMean k per (r :: rest) ∧
    (SoS.bucketRows per (r :: rest) p = [] →
      SoS.bucketMean k per (r :: rest) p = List.replicate k SoS.FVal.nan) := by
  constructor
  · rw [SoS.resampleMean]
    exact List.mem_map.mpr ⟨p, SoS.mem_periodRange.mpr ⟨hap, hpb⟩, rfl⟩
  · exact SoS.bucketMean_of_empty k per (r :: rest) p

/-- Witness for C4 (amended) at the gap month of the counterexample
series. -/
theorem C4_amended_witness :
    ((24277 : Int),
        SoS.bucketMean 1 SoS.monthIdx
          [(⟨2023, 1⟩, [10]), (⟨2023, 3⟩, [10])] 24277)
      ∈ SoS.resampleMean 1 SoS.monthIdx
          [(⟨2023, 1⟩, [10]), (⟨2023, 3⟩, [10])] ∧
    SoS.bucketMean 1 SoS.monthIdx
        [(⟨2023, 1⟩, [10]), (⟨2023, 3⟩, [10])] 24277
      = List.replicate 1 SoS.FVal.nan := by
  have h := C4_amended 1 SoS.monthIdx (⟨2023, 1⟩, [10]) [(⟨2023, 3⟩, [10])]
    24277 (by norm_num [SoS.monthIdx]) (by norm_num [SoS.monthIdx])
  exact ⟨h.1, h.2 (by norm_num [SoS.bucketRows, SoS.monthIdx, List.filter])⟩

/-! ## Claim C8 -/

/-- C8: every non-empty bucket of the resampled series carries, for each
keyword column `j`, exactly the unweighted arithmetic mean of that
column over the rows of the input falling in that calendar period. -/
theorem C8_bucket_is_mean (k : ℕ) (per : SoS.Date → Int) (s : SoS.Series)
    (p : Int) (vals : List SoS.FVal) (j : ℕ)
    (hmem : (p, vals) ∈ SoS.resampleMean k per s)
    (hne : SoS.bucketRows per s p ≠ []) (hj : j < k) :
    vals.getD j SoS.FVal.nan
      = SoS.FVal.fin (((SoS.bucketRows per s p).map (fun r => r.getD j 0)).sum
          / (SoS.bucketRows per s p).length) := by
  rw [SoS.mem_resampleMean k per s hmem]
  exact SoS.bucketMean_getD k per s p j hj hne

/-- Witness for C8: two January-2022 rows with first-keyword shares 10
and 30 average to 20 in the January bucket. -/
theorem C8_bucket_is_mean_witness :
    (SoS.bucketMean 2 SoS.monthIdx
        [(⟨2022, 1⟩, [10, 30]), (⟨2022, 1⟩, [30, 10])] 24264).getD 0 SoS.FVal.nan
      = SoS.FVal.fin 20 := by
  have h := C8_bucket_is_mean 2 SoS.monthIdx
    [(⟨2022, 1⟩, [10, 30]), (⟨2022, 1⟩, [30, 10])] 24264
    (SoS.bucketMean 2 SoS.monthIdx
      [(⟨2022, 1⟩, [10, 30]), (⟨2022, 1⟩, [30, 10])] 24264) 0
    (by
      rw [SoS.resampleMean]
      refine List.mem_map.mpr ⟨24264, SoS.mem_periodRange.mpr ⟨?_, ?_⟩, rfl⟩ <;>
        norm_num [SoS.monthIdx])
    (by
      norm_num [SoS.bucketRows, SoS.monthIdx, List.filter]
      exact List.cons_ne_nil _ _)
    (by norm_num)
  rw [h]
  norm_num [SoS.bucketRows, SoS.monthIdx, List.filter]

/-! ## Claim C7 -/

/-- C7: an empty keyword list, or a list of more than 5 keywords, is
rejected by the validation branch with a warning: the run outcome is
never `analyze`, the only branch that builds the provider request and
performs the share computation. -/
theorem C7_invalid_keyword_set (kws : List (List Char))
    (h : kws = [] ∨ 5 < kws.length) :
    ∀ l, SoS.runAction kws ≠ SoS.RunOutcome.analyze l := by
  intro l
  rcases h with h | h
  · simp [SoS.runAction, h]
  · have hne : kws ≠ [] := by
      intro hk; rw [hk] at h; simp at h
    simp [SoS.runAction, hne, h]

/-- Witness for C7 at a 6-keyword list. -/
theorem C7_invalid_keyword_set_witness :
    SoS.runAction [['a'], ['b'], ['c'], ['d'], ['e'], ['f']]
      ≠ SoS.RunOutcome.analyze [['a'], ['b'], ['c'], ['d'], ['e'], ['f']] :=
  C7_invalid_keyword_set _ (Or.inr (by norm_num)) _

/-! ## Claim C10 -/

/-- C10: the keyword list is the comma-split input with each fragment
stripped and empty-after-strip fragments discarded, before validation:
an input of only commas and whitespace is rejected as an empty keyword
list, and a trailing comma never changes the keyword list (so it never
counts toward the 5-keyword limit). -/
theorem C10_keyword_parsing (input : List Char) :
    ((∀ c ∈ input, c = ',' ∨ SoS.pyWhitespace c) →
      SoS.runAction (SoS.keywordList input) = SoS.RunOutcome.warnEmpty) ∧
    SoS.keywordList (input ++ [',']) = SoS.keywordList input := by
  constructor
  · intro h
    have hempty : SoS.keywordList input = [] := by
      rw [SoS.keywordList, List.filter_eq_nil_iff]
      intro kw hkw
      simp only [ne_eq, decide_not, Bool.not_eq_true', decide_eq_false_iff_not,
        Decidable.not_not]
      obtain ⟨frag, hfrag, rfl⟩ := List.mem_map.mp hkw
      refine SoS.pyStrip_of_all_whitespace frag ?_
      intro c hc
      have hcl := SoS.mem_of_mem_splitComma input frag hfrag c hc
      rcases h c hcl.1 with h1 | h1
      · exact absurd h1 hcl.2
      · exact h1
    rw [hempty]
    rfl
  · exact SoS.keywordList_append_comma input

/-- Witness for C10 at the input `", ,"` (commas and whitespace only). -/
theorem C10_keyword_parsing_witness :
    SoS.runAction (SoS.keywordList [',', ' ', ',']) = SoS.RunOutcome.warnEmpty ∧
    SoS.keywordList ([',', ' ', ','] ++ [',']) = SoS.keywordList [',', ' ', ','] :=
  ⟨(C10_keyword_parsing [',', ' ', ',']).1 (by decide),
   (C10_keyword_parsing [',', ' ', ',']).2⟩
